import Mathlib

/- Verification development for the go-filedb store facade: a shallow
   embedding of the badger-backed adapter (key codec, group index, range
   scanner, error classifier, maintenance loop) together with theorems
   about its observable behavior.  Go strings and byte slices are both
   byte strings; they are modelled alike as lists of characters. -/

namespace FileDB

/- Byte strings: keys and values of the engine. -/
abbrev Bytes := List Char

/- Snapshot of the engine keyspace: an association list with at most one
   entry per key, maintained by the write primitives below. -/
abbrev Store := List (Bytes × Bytes)

/- Error taxonomy.  notFound models the canonical ErrNotFound sentinel
   produced by the error classifier from the engine's key-absent signal;
   invalidRangeLimit models ErrInvalidRangeLimit; engineFailure stands for
   any other engine or transaction error (surfaced wrapped); noRewrite
   models the engine's nothing-left-to-reclaim signal (ErrNoRewrite). -/
inductive Err where
  | notFound
  | invalidRangeLimit
  | engineFailure
  | noRewrite
deriving DecidableEq

/- Engine point read (txn.Get) against a snapshot. -/
def storeGet : Store → Bytes → Option Bytes
  | [], _ => none
  | (k0, v0) :: rest, k => if k0 = k then some v0 else storeGet rest k

/- Engine point write (txn.Set): replaces any existing entry at the key. -/
def storeSet (st : Store) (k v : Bytes) : Store :=
  st.filter (fun p => p.1 ≠ k) ++ [(k, v)]

/- Engine point delete (txn.Delete): deleting an absent key succeeds. -/
def storeDel (st : Store) (k : Bytes) : Store :=
  st.filter (fun p => p.1 ≠ k)

/- Byte-prefix test, as used by the iterator's ValidForPrefix: the first
   argument is the candidate prefix. -/
def startsWith : Bytes → Bytes → Bool
  | [], _ => true
  | _ :: _, [] => false
  | a :: p, b :: l => a = b && startsWith p l

/- Separator constant of the key codec (decrement = "|"). -/
def decrement : Bytes := "|".data

/- Composite member key: groupID(groupKey, fileKey) = groupKey + "|" + fileKey. -/
def groupID (groupKey fileKey : Bytes) : Bytes :=
  groupKey ++ decrement ++ fileKey

/- Index key: keysListID(g) = keysListPrefix + "|" + g, where the index
   namespace constant is the string "keys". -/
def keysListID (g : Bytes) : Bytes :=
  "keys".data ++ decrement ++ g

/- db.Update: the closure's writes commit atomically, or the whole
   transaction aborts with an engine error and the store is unchanged.
   The ok flag is the engine's verdict for this one transaction. -/
def Update (ok : Bool) (st : Store) (f : Store → Store) : Option Err × Store :=
  if ok then (none, f st) else (some Err.engineFailure, st)

/- db.View: a read-only transaction; the store is returned unchanged. -/
def View {α : Type} (st : Store) (f : Store → α) : α × Store := (f st, st)

/- Set(key, val): one Update transaction performing txn.Set. -/
def Set (ok : Bool) (st : Store) (key val : Bytes) : Option Err × Store :=
  Update ok st (fun s => storeSet s key val)

/- Del(key): one Update transaction performing txn.Delete. -/
def Del (ok : Bool) (st : Store) (key : Bytes) : Option Err × Store :=
  Update ok st (fun s => storeDel s key)

/- Read closure of Get(key): txn.Get, value copied out of the transaction
   buffer, followed by the error classifier mapping the engine's key-absent
   signal to the canonical notFound kind.  On failure the returned slice
   stays nil (none). -/
def getVal (st : Store) (key : Bytes) : Option Bytes × Option Err :=
  match storeGet st key with
  | some v => (some v, none)
  | none => (none, some Err.notFound)

/- Get(key): runs the read closure inside a View transaction. -/
def Get (st : Store) (key : Bytes) : (Option Bytes × Option Err) × Store :=
  View st (fun s => getVal s key)

/- DeleteFromGroup(groupID): a single Update transaction deleting the data
   entry and then the index entry derived by re-applying keysListID. -/
def DeleteFromGroup (ok : Bool) (st : Store) (gid : Bytes) : Option Err × Store :=
  Update ok st (fun s => storeDel (storeDel s gid) (keysListID gid))

/- saveKey(key): Set(keysListID(key), key), in its own transaction. -/
def saveKey (ok : Bool) (st : Store) (key : Bytes) : Option Err × Store :=
  Set ok st (keysListID key) key

/- AddToGroup(groupName, key, val): saveKey of the composite key in one
   transaction, then Set of the data entry in a second transaction; an
   error from the first step is returned at once (wrapped). -/
def AddToGroup (ok1 ok2 : Bool) (st : Store) (groupName key val : Bytes) :
    Option Err × Store :=
  match saveKey ok1 st (groupID groupName key) with
  | (some e, st1) => (some e, st1)
  | (none, st1) => Set ok2 st1 (groupID groupName key) val

/- getKeys(listName): prefix scan over keysListID(listName), collecting
   the stored back-reference values in iteration order. -/
def getKeys (st : Store) (listName : Bytes) : List Bytes :=
  (st.filter (fun p => startsWith (keysListID listName) p.1)).map (fun p => p.2)

/- Member-fetch loop of GetGroup: one point get (b.Get) per collected
   composite key; the first failing get aborts the loop, leaving the
   entries assembled so far in resp and returning the error. -/
def getGroupLoop (st : Store) : List Bytes → List (Bytes × Bytes) →
    List (Bytes × Bytes) × Option Err
  | [], acc => (acc, none)
  | k :: ks, acc =>
    match getVal st k with
    | (v, none) => getGroupLoop st ks (acc ++ [(k, v.getD [])])
    | (_, some e) => (acc, some e)

/- Read closure of GetGroup: collect the group's composite keys, allocate
   resp (non-nil from this point on), then fetch every member. -/
def GetGroupTxn (st : Store) (groupName : Bytes) :
    Option (List (Bytes × Bytes)) × Option Err :=
  (some (getGroupLoop st (getKeys st groupName) []).1,
    (getGroupLoop st (getKeys st groupName) []).2)

/- GetGroup(groupName, limit): rejects a non-positive limit before opening
   any transaction; otherwise runs the scan-and-fetch closure inside a View
   transaction, returning the map resp (nil only on the limit error)
   together with the error. -/
def GetGroup (st : Store) (groupName : Bytes) (limit : Int) :
    (Option (List (Bytes × Bytes)) × Option Err) × Store :=
  if limit ≤ 0 then ((none, some Err.invalidRangeLimit), st)
  else View st (fun s => GetGroupTxn s groupName)

/- Per-item step of Range exactly as the source writes it: a fresh zeroed
   buffer valCopy of the value's length is allocated, copy(val, valCopy)
   overwrites the engine buffer val with those zeroes (the source passes
   the arguments in this order), and val itself is what gets appended. -/
def rangeItem (val : Bytes) : Bytes := List.replicate val.length (Char.ofNat 0)

/- Read closure of Range: iterate the prefix, appending rangeItem of each
   matching value. -/
def RangeTxn (st : Store) (pfx : Bytes) : List Bytes × Option Err :=
  ((st.filter (fun p => startsWith pfx p.1)).map (fun p => rangeItem p.2), none)

/- Range(listKey, limit): rejects a non-positive limit before opening any
   transaction; otherwise scans inside a View transaction. -/
def Range (st : Store) (pfx : Bytes) (limit : Int) :
    (List Bytes × Option Err) × Store :=
  if limit ≤ 0 then (([], some Err.invalidRangeLimit), st)
  else View st (fun s => RangeTxn s pfx)

/- Size: pass-through of the engine's size report; dbSize abstracts the
   engine's (lsm, vlog) byte counters. -/
def Size (dbSize : Store → Int × Int) (st : Store) : (Int × Int) × Store :=
  (dbSize st, st)

/- CleanUp: one call to the engine's RunValueLogGC with the fixed discard
   ratio.  The engine collaborator is modelled by its count of reclaimable
   units: a call reclaims one unit when any remains, and otherwise reports
   the terminal noRewrite signal. -/
def CleanUp : Nat → Option Err × Nat
  | 0 => (some Err.noRewrite, 0)
  | u + 1 => (none, u)

/- Calls made by one timer tick of RunCleanupProc: the loop re-invokes
   CleanUp immediately after every nil result and stops at the first call
   that returns an error.  Each successful call consumes one reclaimable
   unit, so a burst started at u + 1 units continues with u units. -/
def cleanupBurst : Nat → List (Option Err) × Nat
  | 0 => ([(CleanUp 0).1], (CleanUp 0).2)
  | u + 1 => ((CleanUp (u + 1)).1 :: (cleanupBurst u).1, (cleanupBurst u).2)

/- Helper lemmas about the store primitives. -/

theorem storeGet_filter_self (st : Store) (k : Bytes) :
    storeGet (st.filter (fun p => p.1 ≠ k)) k = none := by
  induction st with
  | nil => rfl
  | cons hd tl ih =>
    by_cases h : hd.1 = k <;>
      simp only [List.filter_cons, ne_eq, decide_not] at ih ⊢ <;>
      simp [h, storeGet, ih]

theorem storeGet_filter_ne (st : Store) (k k2 : Bytes) (h : k2 ≠ k) :
    storeGet (st.filter (fun p => p.1 ≠ k)) k2 = storeGet st k2 := by
  induction st with
  | nil => rfl
  | cons hd tl ih =>
    by_cases h1 : hd.1 = k
    · have h2 : ¬k = k2 := fun hc => h hc.symm
      simp only [List.filter_cons, ne_eq, decide_not] at ih ⊢
      simp [h1, h2, storeGet, ih]
    · by_cases h2 : hd.1 = k2 <;>
        simp only [List.filter_cons, ne_eq, decide_not] at ih ⊢ <;>
        simp [h1, h2, h, storeGet, ih]

theorem storeGet_append_of_none (l1 l2 : Store) (k : Bytes)
    (h : storeGet l1 k = none) : storeGet (l1 ++ l2) k = storeGet l2 k := by
  induction l1 with
  | nil => rfl
  | cons hd tl ih =>
    rw [List.cons_append]
    by_cases h1 : hd.1 = k
    · simp [storeGet, h1] at h
    · simp only [storeGet, h1, if_false] at h ⊢
      exact ih h

theorem storeGet_append_of_some (l1 l2 : Store) (k v : Bytes)
    (h : storeGet l1 k = some v) : storeGet (l1 ++ l2) k = some v := by
  induction l1 with
  | nil => simp [storeGet] at h
  | cons hd tl ih =>
    rw [List.cons_append]
    by_cases h1 : hd.1 = k
    · simp [storeGet, h1] at h ⊢
      exact h
    · simp [storeGet, h1] at h ⊢
      exact ih h

theorem storeGet_storeSet_self (st : Store) (k v : Bytes) :
    storeGet (storeSet st k v) k = some v := by
  unfold storeSet
  rw [storeGet_append_of_none _ _ _ (storeGet_filter_self st k)]
  simp [storeGet]

theorem storeGet_storeSet_ne (st : Store) (k v k2 : Bytes) (h : k2 ≠ k) :
    storeGet (storeSet st k v) k2 = storeGet st k2 := by
  unfold storeSet
  cases hc : storeGet st k2 with
  | some w =>
    have hf : storeGet (st.filter (fun p => p.1 ≠ k)) k2 = some w := by
      rw [storeGet_filter_ne st k k2 h, hc]
    exact storeGet_append_of_some _ _ _ _ hf
  | none =>
    have hf : storeGet (st.filter (fun p => p.1 ≠ k)) k2 = none := by
      rw [storeGet_filter_ne st k k2 h, hc]
    rw [storeGet_append_of_none _ _ _ hf]
    have hk : k ≠ k2 := fun hc2 => h hc2.symm
    simp [storeGet, hk]

theorem storeGet_storeDel_self (st : Store) (k : Bytes) :
    storeGet (storeDel st k) k = none :=
  storeGet_filter_self st k

theorem storeGet_storeDel_ne (st : Store) (k k2 : Bytes) (h : k2 ≠ k) :
    storeGet (storeDel st k) k2 = storeGet st k2 :=
  storeGet_filter_ne st k k2 h

theorem keysListID_ne (g : Bytes) : keysListID g ≠ g := by
  intro h
  have hl := congrArg List.length h
  simp [keysListID, decrement] at hl
  omega

/- Helper lemmas about the index scan. -/

theorem filter_scan_filter_ne (st : Store) (k g : Bytes)
    (h : startsWith (keysListID g) k = false) :
    (st.filter (fun p => p.1 ≠ k)).filter
        (fun p => startsWith (keysListID g) p.1) =
      st.filter (fun p => startsWith (keysListID g) p.1) := by
  rw [List.filter_filter]
  apply List.filter_congr
  intro a _
  by_cases hk : a.1 = k
  · simp [hk, h]
  · simp [hk]

theorem getKeys_storeSet_miss (st : Store) (k v g : Bytes)
    (h : startsWith (keysListID g) k = false) :
    getKeys (storeSet st k v) g = getKeys st g := by
  unfold getKeys storeSet
  rw [List.filter_append]
  have h2 : List.filter (fun p => startsWith (keysListID g) p.1)
      ([(k, v)] : Store) = [] := by simp [h]
  rw [h2, List.append_nil, filter_scan_filter_ne st k g h]

/- Helper lemmas about the member-fetch loop. -/

theorem getVal_ok (st : Store) (k : Bytes) (v : Option Bytes)
    (h : getVal st k = (v, none)) : v = some (v.getD []) := by
  unfold getVal at h
  cases hg : storeGet st k with
  | some w =>
    rw [hg] at h
    cases h
    rfl
  | none =>
    rw [hg] at h
    exact absurd h (by simp)

theorem getGroupLoop_err (st : Store) (ks : List Bytes)
    (acc : List (Bytes × Bytes)) (e : Err)
    (h : (getGroupLoop st ks acc).2 = some e) :
    ∃ k, k ∈ ks ∧ (getVal st k).2 = some e := by
  induction ks generalizing acc with
  | nil => simp [getGroupLoop] at h
  | cons k ks ih =>
    unfold getGroupLoop at h
    split at h
    · obtain ⟨k2, hk2, he⟩ := ih _ h
      exact ⟨k2, List.mem_cons_of_mem _ hk2, he⟩
    · rename_i v e2 heq
      simp only at h
      refine ⟨k, List.mem_cons_self k ks, ?_⟩
      rw [heq]
      simpa using h

theorem getGroupLoop_mem (st : Store) (ks : List Bytes)
    (acc : List (Bytes × Bytes)) (kv : Bytes × Bytes)
    (h : kv ∈ (getGroupLoop st ks acc).1) :
    kv ∈ acc ∨ (kv.1 ∈ ks ∧ getVal st kv.1 = (some kv.2, none)) := by
  induction ks generalizing acc with
  | nil =>
    simp only [getGroupLoop] at h
    exact Or.inl h
  | cons k ks ih =>
    unfold getGroupLoop at h
    split at h
    · rename_i v heq
      rcases ih _ h with hacc | ⟨hm, hv⟩
      · rcases List.mem_append.mp hacc with ha | hb
        · exact Or.inl ha
        · have hkv : kv = (k, v.getD []) := by simpa using hb
          subst hkv
          refine Or.inr ⟨List.mem_cons_self k ks, ?_⟩
          have hv2 := getVal_ok st k v heq
          show getVal st k = (some (v.getD []), none)
          rw [heq]
          exact congrArg (fun w => ((w : Option Bytes), (none : Option Err))) hv2
      · exact Or.inr ⟨List.mem_cons_of_mem _ hm, hv⟩
    · simp only at h
      exact Or.inl h

/- Claim theorems. -/

/-- Claim C1 counterexample: AddToGroup is not one atomic transaction.  With
the first of its two transactions (saveKey) committing and the second (Set
of the data entry) aborting, AddToGroup returns an error yet the store has
changed: starting from the empty store, the index entry is observable while
the data entry is not. -/
theorem addToGroup_not_atomic_cex :
    (AddToGroup true false [] "g".data "m".data "v".data).1 =
      some Err.engineFailure ∧
    (AddToGroup true false [] "g".data "m".data "v".data).2 ≠ [] ∧
    storeGet (AddToGroup true false [] "g".data "m".data "v".data).2
      (keysListID (groupID "g".data "m".data)) =
      some (groupID "g".data "m".data) ∧
    storeGet (AddToGroup true false [] "g".data "m".data "v".data).2
      (groupID "g".data "m".data) = none := by decide

/-- Claim C1 (amended): AddToGroup issues two separate transactions, the
index-entry write (saveKey) followed by the data-entry write, each
individually atomic.  When both commit, AddToGroup succeeds and both
entries are observable with the stated contents; when the first aborts, an
error is returned and the store is unchanged; when the second aborts, an
error is returned but the already committed index entry remains. -/
theorem addToGroup_two_txns (st : Store) (g m v : Bytes) :
    ((AddToGroup true true st g m v).1 = none ∧
      storeGet (AddToGroup true true st g m v).2 (groupID g m) = some v ∧
      storeGet (AddToGroup true true st g m v).2 (keysListID (groupID g m)) =
        some (groupID g m)) ∧
    (∀ ok2, AddToGroup false ok2 st g m v = (some Err.engineFailure, st)) ∧
    AddToGroup true false st g m v =
      (some Err.engineFailure,
        storeSet st (keysListID (groupID g m)) (groupID g m)) := by
  refine ⟨⟨?_, ?_, ?_⟩, ?_, ?_⟩
  · simp [AddToGroup, saveKey, Set, Update]
  · simp only [AddToGroup, saveKey, Set, Update, if_true]
    exact storeGet_storeSet_self _ _ _
  · simp only [AddToGroup, saveKey, Set, Update, if_true]
    rw [storeGet_storeSet_ne _ _ _ _ (keysListID_ne (groupID g m))]
    exact storeGet_storeSet_self _ _ _
  · intro ok2
    simp [AddToGroup, saveKey, Set, Update]
  · simp [AddToGroup, saveKey, Set, Update]

/-- Claim C2 counterexample: group isolation fails between groups whose
names are in a textual prefix relation.  The member m added to group ab is
returned by GetGroup for the distinct group a (whose name is a textual
prefix of ab) with the positive limit 1: the scan prefix keys|a also
matches the index key keys|ab|m. -/
theorem getGroup_prefix_leak_cex :
    (((GetGroup (AddToGroup true true [] "ab".data "m".data "v".data).2
          "a".data 1).1.1.getD []).map (fun p => p.1) =
      [groupID "ab".data "m".data]) ∧
    startsWith "a".data "ab".data = true ∧
    "a".data ≠ "ab".data ∧
    (GetGroup (AddToGroup true true [] "ab".data "m".data "v".data).2
        "a".data 1).1.2 = none := by decide

/-- Claim C3, evaluated at the failing input: Range appends the engine
buffer after overwriting it with the zeroes of the never-used fresh buffer
(the source's copy call passes destination and source swapped), so for the
store holding value 0 under key list|0, Range with prefix list and limit
127 returns a zero byte rather than a copy of the stored value. -/
theorem range_returns_zeroed_cex :
    (Range [("list|0".data, "0".data)] "list".data 127).1 =
      ([[Char.ofNat 0]], none) ∧
    storeGet [("list|0".data, "0".data)] "list|0".data = some "0".data ∧
    [Char.ofNat 0] ≠ "0".data := by decide

/-- Claim C2 (amended): a member added to group g1 is absent from
GetGroup of a distinct group g2 exactly when neither the index key nor the
data key of the new member falls under the scan prefix keys|g2 — that is,
when keys|g2 is not a textual prefix of keys|g1|member and not of
g1|member — provided the composite key was not already recorded under g2's
scan range.  In particular isolation fails when g2 is a textual prefix of
g1 (see the counterexample) and holds whenever the prefix conditions above
are met. -/
theorem getGroup_isolation (st : Store) (g1 g2 m v : Bytes) (lim : Int)
    (h1 : startsWith (keysListID g2) (keysListID (groupID g1 m)) = false)
    (h2 : startsWith (keysListID g2) (groupID g1 m) = false)
    (h3 : groupID g1 m ∉ getKeys st g2) :
    (((GetGroup (AddToGroup true true st g1 m v).2 g2 lim).1.1.getD []).all
      (fun kv => decide (kv.1 ≠ groupID g1 m))) = true := by
  by_cases hl : lim ≤ 0
  · simp [GetGroup, hl]
  · have hst : (AddToGroup true true st g1 m v).2 =
        storeSet (storeSet st (keysListID (groupID g1 m)) (groupID g1 m))
          (groupID g1 m) v := by
      simp [AddToGroup, saveKey, Set, Update]
    have hkeys : getKeys (AddToGroup true true st g1 m v).2 g2 =
        getKeys st g2 := by
      rw [hst, getKeys_storeSet_miss _ _ _ _ h2, getKeys_storeSet_miss _ _ _ _ h1]
    rw [List.all_eq_true]
    intro kv hkv
    simp only [GetGroup, if_neg hl, View, GetGroupTxn, Option.getD_some] at hkv
    rcases getGroupLoop_mem _ _ _ kv hkv with hin | ⟨hm, _⟩
    · simp at hin
    · rw [hkeys] at hm
      exact decide_eq_true (fun hc => h3 (hc ▸ hm))

/-- Claim C2 amended-theorem witness at concrete inputs: groups ab and cd
share no prefix relation, so after adding member m to ab in the empty
store, no key of the mapping returned by GetGroup for cd equals the new
composite key. -/
theorem getGroup_isolation_witness :
    (((GetGroup (AddToGroup true true [] "ab".data "m".data "v".data).2
        "cd".data 1).1.1.getD []).all
      (fun kv => decide (kv.1 ≠ groupID "ab".data "m".data))) = true :=
  getGroup_isolation [] "ab".data "cd".data "m".data "v".data 1
    (by decide) (by decide) (by decide)

/- Store used for the C4 counterexample and witness: two members a and b
added to group g, then the data entry of member b deleted directly by Del,
leaving a dangling index entry whose point-get fails. -/
def stC4 : Store :=
  (Del true
    (AddToGroup true true
      (AddToGroup true true [] "g".data "a".data "A".data).2
      "g".data "b".data "B".data).2
    (groupID "g".data "b".data)).2

/-- Claim C4 counterexample: when a point-get inside GetGroup fails, the
returned mapping is not empty or nil.  On a store with a live member a and
a dangling index entry for member b of group g, GetGroup with limit 5
returns the notFound error together with a mapping holding exactly the
member fetched before the failure. -/
theorem getGroup_partial_on_error_cex :
    (GetGroup stC4 "g".data 5).1.2 = some Err.notFound ∧
    (GetGroup stC4 "g".data 5).1.1 =
      some [(groupID "g".data "a".data, "A".data)] ∧
    (GetGroup stC4 "g".data 5).1.1 ≠ none ∧
    (GetGroup stC4 "g".data 5).1.1 ≠ some [] := by decide

/-- Claim C4 (amended): GetGroup is fail-fast — any error it returns is the
error of a failing point-get on one of the collected composite keys — and
the mapping returned alongside an error is the partial map of the members
fetched before the failure: every entry of the returned mapping pairs a
collected composite key with the value its point-get returned
successfully.  Callers must disregard the mapping when the error is
non-nil; it is not guaranteed to be empty or nil. -/
theorem getGroup_failfast (st : Store) (g : Bytes) (lim : Int) (e : Err)
    (h : 0 < lim) :
    ((GetGroup st g lim).1.2 = some e →
      ((getKeys st g).any (fun k => decide ((getVal st k).2 = some e))) = true) ∧
    (((GetGroup st g lim).1.1.getD []).all
      (fun kv => decide (kv.1 ∈ getKeys st g) &&
        decide (getVal st kv.1 = (some kv.2, none)))) = true := by
  have hl : ¬lim ≤ 0 := by omega
  constructor
  · intro he
    simp only [GetGroup, if_neg hl, View, GetGroupTxn] at he
    obtain ⟨k, hk, hke⟩ := getGroupLoop_err st (getKeys st g) [] e he
    rw [List.any_eq_true]
    exact ⟨k, hk, decide_eq_true hke⟩
  · rw [List.all_eq_true]
    intro kv hkv
    simp only [GetGroup, if_neg hl, View, GetGroupTxn, Option.getD_some] at hkv
    rcases getGroupLoop_mem st (getKeys st g) [] kv hkv with hin | ⟨hm, hv⟩
    · simp at hin
    · rw [Bool.and_eq_true]
      exact ⟨decide_eq_true hm, decide_eq_true hv⟩

/-- Claim C4 amended-theorem witness at the concrete dangling-index store:
limit 5 is positive, the notFound error GetGroup returns does come from a
failing point-get on a collected key, and every returned entry is a
successfully fetched member. -/
theorem getGroup_failfast_witness :
    ((GetGroup stC4 "g".data 5).1.2 = some Err.notFound →
      ((getKeys stC4 "g".data).any
        (fun k => decide ((getVal stC4 k).2 = some Err.notFound))) = true) ∧
    (((GetGroup stC4 "g".data 5).1.1.getD []).all
      (fun kv => decide (kv.1 ∈ getKeys stC4 "g".data) &&
        decide (getVal stC4 kv.1 = (some kv.2, none)))) = true :=
  getGroup_failfast stC4 "g".data 5 Err.notFound (by decide)

/-- Claim C5: DeleteFromGroup deletes the data entry at the given composite
key and the index entry obtained by re-applying keysListID to it, inside
one transaction (a single commit verdict governs both deletes, and an
aborted transaction leaves the store unchanged).  It succeeds uncondition-
ally — also when one or both entries were already absent, since the store
state st is arbitrary — and afterwards both entries are absent. -/
theorem deleteFromGroup_atomic (st : Store) (gid : Bytes) :
    (DeleteFromGroup true st gid).1 = none ∧
    storeGet (DeleteFromGroup true st gid).2 gid = none ∧
    storeGet (DeleteFromGroup true st gid).2 (keysListID gid) = none ∧
    DeleteFromGroup false st gid = (some Err.engineFailure, st) := by
  refine ⟨rfl, ?_, ?_, rfl⟩
  · show storeGet (storeDel (storeDel st gid) (keysListID gid)) gid = none
    rw [storeGet_storeDel_ne (storeDel st gid) (keysListID gid) gid
      (Ne.symm (keysListID_ne gid))]
    exact storeGet_storeDel_self st gid
  · exact storeGet_storeDel_self (storeDel st gid) (keysListID gid)

/-- Claim C6: the limit parameter never truncates the scan — for any two
positive limits, GetGroup returns the identical mapping, error and store,
and likewise Range: after the positivity check the limit is never
consulted. -/
theorem limit_does_not_truncate (st : Store) (g p : Bytes) (l1 l2 : Int)
    (h1 : 0 < l1) (h2 : 0 < l2) :
    GetGroup st g l1 = GetGroup st g l2 ∧ Range st p l1 = Range st p l2 := by
  have n1 : ¬l1 ≤ 0 := by omega
  have n2 : ¬l2 ≤ 0 := by omega
  constructor
  · simp [GetGroup, n1, n2]
  · simp [Range, n1, n2]

/-- Claim C6 theorem witness: limits 1 and 127 give identical GetGroup and
Range results on the empty store. -/
theorem limit_does_not_truncate_witness :
    GetGroup [] "g".data 1 = GetGroup [] "g".data 127 ∧
    Range [] "p".data 1 = Range [] "p".data 127 :=
  limit_does_not_truncate [] "g".data "p".data 1 127 (by decide) (by decide)

/-- Claim C7: for every prior store state, after Del(k) succeeds, Get(k)
fails with the canonical notFound error kind produced by the error
classifier (the engine-internal key-absent sentinel is classified before
being returned), and the returned value slice is nil. -/
theorem get_after_del_notFound (st : Store) (k : Bytes) :
    (Get (Del true st k).2 k).1 = (none, some Err.notFound) := by
  show getVal (storeDel st k) k = (none, some Err.notFound)
  unfold getVal
  rw [storeGet_storeDel_self]

/-- Claim C8: with any non-positive limit, GetGroup and Range fail with the
invalidRangeLimit error kind, return a nil mapping and nil slice list, and
touch the engine in no way: the store is returned unchanged and the result
does not depend on the store contents at all. -/
theorem nonpositive_limit_rejected (st st2 : Store) (g p : Bytes) (l : Int)
    (h : l ≤ 0) :
    GetGroup st g l = ((none, some Err.invalidRangeLimit), st) ∧
    Range st p l = (([], some Err.invalidRangeLimit), st) ∧
    (GetGroup st g l).1 = (GetGroup st2 g l).1 ∧
    (Range st p l).1 = (Range st2 p l).1 := by
  simp [GetGroup, Range, h]

/-- Claim C8 theorem witness at the limits 0 and -1, on the empty store and
on a store with one unrelated entry. -/
theorem nonpositive_limit_rejected_witness :
    (GetGroup [] "g".data 0 = ((none, some Err.invalidRangeLimit), []) ∧
      Range [] "p".data 0 = (([], some Err.invalidRangeLimit), []) ∧
      (GetGroup [] "g".data 0).1 = (GetGroup [("x".data, "y".data)] "g".data 0).1 ∧
      (Range [] "p".data 0).1 = (Range [("x".data, "y".data)] "p".data 0).1) ∧
    (GetGroup [] "g".data (-1) = ((none, some Err.invalidRangeLimit), []) ∧
      Range [] "p".data (-1) = (([], some Err.invalidRangeLimit), []) ∧
      (GetGroup [] "g".data (-1)).1 =
        (GetGroup [("x".data, "y".data)] "g".data (-1)).1 ∧
      (Range [] "p".data (-1)).1 = (Range [("x".data, "y".data)] "p".data (-1)).1) :=
  ⟨nonpositive_limit_rejected [] [("x".data, "y".data)] "g".data "p".data 0
      (by decide),
    nonpositive_limit_rejected [] [("x".data, "y".data)] "g".data "p".data (-1)
      (by decide)⟩

/-- Claim C9: one timer tick of the maintenance loop with n reclaimable
units produces exactly n successful CleanUp calls followed by one call
returning the terminal noRewrite signal, at which the loop returns to
waiting; the burst makes n + 1 calls in total and drains the store. -/
theorem cleanup_burst_drains (n : Nat) :
    cleanupBurst n = (List.replicate n none ++ [some Err.noRewrite], 0) ∧
    (cleanupBurst n).1.length = n + 1 := by
  have hmain : cleanupBurst n =
      (List.replicate n none ++ [some Err.noRewrite], 0) := by
    induction n with
    | zero => rfl
    | succ m ih => simp [cleanupBurst, CleanUp, ih, List.replicate_succ]
  refine ⟨hmain, ?_⟩
  rw [hmain]
  simp

/-- Claim C10: the read operations Get, GetGroup, Range and Size leave the
store exactly as it was, for every input and every store state, on the
success and on the failure paths alike. -/
theorem reads_do_not_modify (st : Store) (k g p : Bytes) (l : Int)
    (f : Store → Int × Int) :
    (Get st k).2 = st ∧ (GetGroup st g l).2 = st ∧ (Range st p l).2 = st ∧
    (Size f st).2 = st := by
  refine ⟨rfl, ?_, ?_, rfl⟩
  · by_cases hl : l ≤ 0 <;> simp [GetGroup, hl, View]
  · by_cases hl : l ≤ 0 <;> simp [Range, hl, View]

end FileDB
